import Mathlib

/-!
Shallow embedding of the Loopi game-loop library (`src/index.ts`).

The library is a single class, `LoopiClass`, holding timing state and an
ordered registry of events.  Each animation frame invokes `_update` with a
host-supplied timestamp; `_update` advances two tick accumulators and then
walks the event registry in order.

Modelling decisions:
* JS numbers (timestamps, tick counters, rates) are modelled as exact
  rationals.
* The caller-supplied `condition`/`action` closures are effectful and read
  ambient state, so a frame receives externally the boolean each event's
  condition would return this frame (`conds : Nat → Bool`, indexed by
  registry position), and `_update` reports, besides the new state, the
  trace of registry positions whose `condition` was invoked and whose
  `action` was invoked, in order.  This makes "the condition was not
  checked" and "the action did not fire" directly statable.
* `Math.random`, the `window` presence check and the
  `requestAnimationFrame` re-arm/cancel calls are scheduling glue outside
  the claims and are not modelled.
-/

/-- A registered Loopi event: the caller-visible `runWhile` flag and the
driver-private `_isActive` flag (field `isActive` here).  The `condition`
and `action` closures are modelled externally (see module docstring). -/
structure LoopiEvent where
  runWhile : Bool
  isActive : Bool
  deriving DecidableEq, Repr

/-- The mutable state of a `LoopiClass` instance (`src/index.ts`).  Field
names follow the source fields minus the leading underscore;
`optionsTicksPerSecond` is `this._options.ticksPerSecond`, kept separate
from `ticksPerSecond` (`this._ticksPerSecond`) exactly as in the source. -/
structure LoopiClass where
  optionsTicksPerSecond : ℚ
  paused : Bool
  lastTime : ℚ
  ticks : ℚ
  ticksPerSecond : ℚ
  events : List LoopiEvent
  unpausedTimestamp : ℚ
  unpausedLastTime : ℚ
  unpausedDeltaTime : ℚ
  unpausedTicks : ℚ
  deriving DecidableEq

/-- The constructor (`new LoopiClass(options)` via the `loopi` factory):
`Object.assign({ randomNumberCeiling: 101, ticksPerSecond: 1 }, options)`
defaults the tick rate to 1; all counters start at zero, unpaused, empty
registry. -/
def loopi (ticksPerSecondOpt : Option ℚ) : LoopiClass :=
  let tps := ticksPerSecondOpt.getD 1
  { optionsTicksPerSecond := tps
    paused := false
    lastTime := 0
    ticks := 0
    ticksPerSecond := tps
    events := []
    unpausedTimestamp := 0
    unpausedLastTime := 0
    unpausedDeltaTime := 0
    unpausedTicks := 0 }

/-- The event-evaluation pass of `_update`, the `for (const event of
this._events)` loop.  `i` is the registry position of the head of the
remaining list; `conds i` is what `event.condition()` returns at position
`i`.  Returns the updated registry, the positions whose condition was
invoked, and the positions whose action was invoked, in order.  The source:

```
if (event.condition() && !this._paused) {
  if (event._isActive && !event.runWhile) { break; }
  event.action();
  event._isActive = true;
} else {
  event._isActive = false;
}
```

`condition()` is always invoked (it is the first operand of `&&`); on
`break` the remaining events are left untouched. -/
def evalEvents (paused : Bool) (conds : Nat → Bool) :
    List LoopiEvent → Nat → List LoopiEvent × List Nat × List Nat
  | [], _ => ([], [], [])
  | e :: rest, i =>
    if conds i then
      if !paused then
        if e.isActive && !e.runWhile then
          (e :: rest, [i], [])
        else
          let r := evalEvents paused conds rest (i + 1)
          ({ e with isActive := true } :: r.1, i :: r.2.1, i :: r.2.2)
      else
        let r := evalEvents paused conds rest (i + 1)
        ({ e with isActive := false } :: r.1, i :: r.2.1, r.2.2)
    else
      let r := evalEvents paused conds rest (i + 1)
      ({ e with isActive := false } :: r.1, i :: r.2.1, r.2.2)

/-- Result of one frame: the new instance state plus the invocation trace
of the event pass. -/
structure FrameResult where
  state : LoopiClass
  condCalls : List Nat
  actionCalls : List Nat

/-- One frame of the loop driver, `LoopiClass.prototype._update(timestamp)`:
if a previous timestamp exists (`this._lastTime > 0`) compute the delta and
advance the plain accumulator unconditionally and the unpaused bookkeeping
only while not paused; store the timestamp; then run the event pass. -/
def LoopiClass._update (s : LoopiClass) (timestamp : ℚ) (conds : Nat → Bool) :
    FrameResult :=
  let s1 :=
    if 0 < s.lastTime then
      let deltaTime := timestamp - s.lastTime
      let ticks := s.ticks + s.ticksPerSecond * deltaTime / 1000
      let unpausedTimestamp := if s.paused then s.unpausedTimestamp else timestamp
      let unpausedLastTime := if s.paused then s.unpausedLastTime else s.lastTime
      let unpausedDeltaTime :=
        if s.paused then unpausedTimestamp - unpausedLastTime else deltaTime
      let unpausedTicks :=
        if s.paused then s.unpausedTicks
        else s.unpausedTicks + s.ticksPerSecond * unpausedDeltaTime / 1000
      { s with ticks := ticks
               unpausedTimestamp := unpausedTimestamp
               unpausedLastTime := unpausedLastTime
               unpausedDeltaTime := unpausedDeltaTime
               unpausedTicks := unpausedTicks }
    else s
  let s2 := { s1 with lastTime := timestamp }
  let r := evalEvents s2.paused conds s2.events 0
  { state := { s2 with events := r.1 }
    condCalls := r.2.1
    actionCalls := r.2.2 }

/-- The `stats` getter: a fresh snapshot `{ ticks, ticksUnpaused, tps }`. -/
structure LoopiStats where
  ticks : ℚ
  ticksUnpaused : ℚ
  tps : ℚ
  deriving DecidableEq

/-- `get stats()` from the source. -/
def LoopiClass.stats (s : LoopiClass) : LoopiStats :=
  { ticks := s.ticks, ticksUnpaused := s.unpausedTicks, tps := s.ticksPerSecond }

/-- `addEvent(event)`: `runWhile` defaults to `false` when omitted; the
stored copy gets `_isActive: false`. -/
def LoopiClass.addEvent (s : LoopiClass) (runWhileOpt : Option Bool) : LoopiClass :=
  { s with events := s.events ++ [{ runWhile := runWhileOpt.getD false, isActive := false }] }

/-- `getEvent(index)`: `this._events[index]`, `undefined` out of range. -/
def LoopiClass.getEvent (s : LoopiClass) (index : Nat) : Option LoopiEvent :=
  s.events[index]?

/-- `getEventAll()`. -/
def LoopiClass.getEventAll (s : LoopiClass) : List LoopiEvent :=
  s.events

/-- `Array.prototype.splice(start, 1)` on a list, with ECMAScript semantics
for the `start` argument: a negative `start` counts back from the end of the
array, clamped at 0; a `start` at or past the end removes nothing. -/
def splice1 (l : List LoopiEvent) (start : ℤ) : List LoopiEvent :=
  let k : Nat := if start < 0 then ((l.length : ℤ) + start).toNat else min start.toNat l.length
  l.take k ++ l.drop (k + 1)

/-- `removeEvent(index)`: `this._events.splice(index, 1)`. -/
def LoopiClass.removeEvent (s : LoopiClass) (index : ℤ) : LoopiClass :=
  { s with events := splice1 s.events index }

/-- `removeEventAll()`. -/
def LoopiClass.removeEventAll (s : LoopiClass) : LoopiClass :=
  { s with events := [] }

/-- `pauseGame()`. -/
def LoopiClass.pauseGame (s : LoopiClass) : LoopiClass :=
  { s with paused := true }

/-- `resumeGame()`. -/
def LoopiClass.resumeGame (s : LoopiClass) : LoopiClass :=
  { s with paused := false }

/-- `changeTps(newTicksPerSecond)`: the source assigns only
`this._options.ticksPerSecond = newTicksPerSecond`; the field
`this._ticksPerSecond` read by `_update` and `stats` is not touched. -/
def LoopiClass.changeTps (s : LoopiClass) (newTicksPerSecond : ℚ) : LoopiClass :=
  { s with optionsTicksPerSecond := newTicksPerSecond }

/-! ### Helper lemmas about one frame -/

/-- `_update` never changes the paused flag. -/
theorem update_preserves_paused (s : LoopiClass) (t : ℚ) (conds : Nat → Bool) :
    (s._update t conds).state.paused = s.paused := by
  simp only [LoopiClass._update]
  split <;> rfl

/-- The registry after one frame is the event pass applied to the old
registry (the timing phase does not touch the registry). -/
theorem update_state_events (s : LoopiClass) (t : ℚ) (conds : Nat → Bool) :
    (s._update t conds).state.events = (evalEvents s.paused conds s.events 0).1 := by
  simp only [LoopiClass._update]
  split <;> rfl

/-- The condition-invocation trace of one frame. -/
theorem update_condCalls_eq (s : LoopiClass) (t : ℚ) (conds : Nat → Bool) :
    (s._update t conds).condCalls = (evalEvents s.paused conds s.events 0).2.1 := by
  simp only [LoopiClass._update]
  split <;> rfl

/-- The action-invocation trace of one frame. -/
theorem update_actionCalls_eq (s : LoopiClass) (t : ℚ) (conds : Nat → Bool) :
    (s._update t conds).actionCalls = (evalEvents s.paused conds s.events 0).2.2 := by
  simp only [LoopiClass._update]
  split <;> rfl

/-- `_update` stores the frame's timestamp as the next baseline,
unconditionally. -/
theorem update_lastTime (s : LoopiClass) (t : ℚ) (conds : Nat → Bool) :
    (s._update t conds).state.lastTime = t := by
  simp only [LoopiClass._update]

/-- When the stored previous timestamp is not positive, the whole timing
phase is skipped: every tick field is unchanged. -/
theorem update_skip (s : LoopiClass) (t : ℚ) (conds : Nat → Bool)
    (h : s.lastTime ≤ 0) :
    (s._update t conds).state.ticks = s.ticks ∧
    (s._update t conds).state.unpausedTicks = s.unpausedTicks ∧
    (s._update t conds).state.unpausedDeltaTime = s.unpausedDeltaTime := by
  have hnot : ¬ (0 < s.lastTime) := not_lt.mpr h
  simp only [LoopiClass._update, if_neg hnot]
  exact ⟨trivial, trivial, trivial⟩

/-- When the stored previous timestamp is positive, the plain accumulator
advances by exactly `tickRate * (timestamp - lastTime) / 1000`, regardless
of the paused flag. -/
theorem update_ticks_formula (s : LoopiClass) (t : ℚ) (conds : Nat → Bool)
    (h : 0 < s.lastTime) :
    (s._update t conds).state.ticks =
      s.ticks + s.ticksPerSecond * (t - s.lastTime) / 1000 := by
  simp only [LoopiClass._update, if_pos h]

/-! ### Helper lemmas about the event pass -/

/-- If the event at relative position `m` of the remaining list is active
with `runWhile = false` and its condition holds this frame, then (loop not
paused) the pass never gets past absolute position `k + m`: every invoked
condition is at a position `≤ k + m`, every invoked action is at a position
`≤ k + m`, and every event from relative position `m` on is untouched. -/
theorem evalEvents_stop (conds : Nat → Bool) :
    ∀ (l : List LoopiEvent) (k m : Nat) (em : LoopiEvent),
    l[m]? = some em → em.isActive = true → em.runWhile = false →
    conds (k + m) = true →
    (∀ j ∈ (evalEvents false conds l k).2.1, j ≤ k + m) ∧
    (∀ j ∈ (evalEvents false conds l k).2.2, j ≤ k + m) ∧
    (∀ j, m ≤ j → (evalEvents false conds l k).1[j]? = l[j]?) := by
  intro l
  induction l with
  | nil =>
    intro k m em hm
    simp at hm
  | cons e rest ih =>
    intro k m em hm ha hw hc
    cases m with
    | zero =>
      rw [List.getElem?_cons_zero] at hm
      injection hm with hm
      subst hm
      have hck : conds k = true := by simpa using hc
      simp only [evalEvents, hck, Bool.not_false, if_true, ha, hw, Bool.and_self]
      refine ⟨?_, ?_, ?_⟩
      · intro j hj
        simp only [List.mem_singleton] at hj
        omega
      · intro j hj
        simp at hj
      · intro j _
        trivial
    | succ m' =>
      rw [List.getElem?_cons_succ] at hm
      have hc' : conds (k + 1 + m') = true := by
        have harith : k + 1 + m' = k + (m' + 1) := by omega
        rw [harith]
        exact hc
      obtain ⟨ih1, ih2, ih3⟩ := ih (k + 1) m' em hm ha hw hc'
      by_cases hck : conds k = true
      · by_cases hb : (e.isActive && !e.runWhile) = true
        · simp only [evalEvents, hck, Bool.not_false, if_true, hb]
          refine ⟨?_, ?_, ?_⟩
          · intro j hj
            simp only [List.mem_singleton] at hj
            omega
          · intro j hj
            simp at hj
          · intro j _
            trivial
        · have hb' : (e.isActive && !e.runWhile) = false := by
            simpa using hb
          simp only [evalEvents, hck, Bool.not_false, if_true, hb', Bool.false_eq_true,
            if_false]
          refine ⟨?_, ?_, ?_⟩
          · intro j hj
            rcases List.mem_cons.mp hj with h0 | h0
            · omega
            · have := ih1 j h0
              omega
          · intro j hj
            rcases List.mem_cons.mp hj with h0 | h0
            · omega
            · have := ih2 j h0
              omega
          · intro j hj
            cases j with
            | zero => omega
            | succ j' =>
              simp only [List.getElem?_cons_succ]
              exact ih3 j' (by omega)
      · have hck' : conds k = false := by simpa using hck
        simp only [evalEvents, hck', Bool.false_eq_true, if_false]
        refine ⟨?_, ?_, ?_⟩
        · intro j hj
          rcases List.mem_cons.mp hj with h0 | h0
          · omega
          · have := ih1 j h0
            omega
        · intro j hj
          have := ih2 j hj
          omega
        · intro j hj
          cases j with
          | zero => omega
          | succ j' =>
            simp only [List.getElem?_cons_succ]
            exact ih3 j' (by omega)

/-- When no event in the remaining list is active, the pass never breaks:
every remaining event's condition is invoked, in order. -/
theorem evalEvents_inactive_condCalls (paused : Bool) (conds : Nat → Bool) :
    ∀ (l : List LoopiEvent) (k : Nat), (∀ e ∈ l, e.isActive = false) →
    (evalEvents paused conds l k).2.1 = List.range' k l.length := by
  intro l
  induction l with
  | nil =>
    intro k _
    simp [evalEvents]
  | cons e rest ih =>
    intro k h
    have he : e.isActive = false := h e (List.mem_cons_self e rest)
    have hrest : ∀ x ∈ rest, x.isActive = false :=
      fun x hx => h x (List.mem_cons_of_mem e hx)
    have hr := ih (k + 1) hrest
    have hlen : (e :: rest).length = rest.length + 1 := rfl
    rw [hlen, List.range'_succ k rest.length 1]
    by_cases hck : conds k = true
    · by_cases hp : paused = true
      · subst hp
        simp [evalEvents, hck, hr]
      · have hp' : paused = false := by simpa using hp
        subst hp'
        simp [evalEvents, hck, he, hr]
    · have hck' : conds k = false := by simpa using hck
      simp [evalEvents, hck', hr]

/-- A frame evaluated while paused never breaks and deactivates every
event: the pass invokes every condition in order and maps every stored
event to an inactive copy. -/
theorem evalEvents_paused (conds : Nat → Bool) :
    ∀ (l : List LoopiEvent) (k : Nat),
    (evalEvents true conds l k).2.1 = List.range' k l.length ∧
    (evalEvents true conds l k).2.2 = [] ∧
    (evalEvents true conds l k).1 = l.map (fun e => { e with isActive := false }) := by
  intro l
  induction l with
  | nil =>
    intro k
    simp [evalEvents]
  | cons e rest ih =>
    intro k
    obtain ⟨ih1, ih2, ih3⟩ := ih (k + 1)
    have hlen : (e :: rest).length = rest.length + 1 := rfl
    rw [hlen, List.range'_succ k rest.length 1]
    by_cases hck : conds k = true
    · simp [evalEvents, hck, ih1, ih2, ih3]
    · have hck' : conds k = false := by simpa using hck
      simp [evalEvents, hck', ih1, ih2, ih3]

/-- With a positive stored timestamp, the unpaused accumulator is frozen
while paused and otherwise advances by the same delta as the plain one. -/
theorem update_unpausedTicks_formula (s : LoopiClass) (t : ℚ) (conds : Nat → Bool)
    (hl : 0 < s.lastTime) :
    (s._update t conds).state.unpausedTicks =
      (if s.paused then s.unpausedTicks
       else s.unpausedTicks + s.ticksPerSecond * (t - s.lastTime) / 1000) := by
  by_cases hp : s.paused = true
  · simp [LoopiClass._update, if_pos hl, hp]
  · have hp' : s.paused = false := by simpa using hp
    simp [LoopiClass._update, if_pos hl, hp']

/-! ### Concrete instances used as witnesses -/

/-- A condition environment returning `true` at every position. -/
def condsTrue : Nat → Bool := fun _ => true

/-- A condition environment returning `false` at every position. -/
def condsFalse : Nat → Bool := fun _ => false

/-- A fresh default instance with one one-shot event registered. -/
def loopiOneEvent : LoopiClass := (loopi none).addEvent none

/-- An instance whose first event is an already-active one-shot, followed
by an inactive one-shot. -/
def loopiBlocked : LoopiClass :=
  { loopiOneEvent with
      events := [{ runWhile := false, isActive := true },
                 { runWhile := false, isActive := false }] }

/-- A fresh default instance with one level-triggered event registered. -/
def loopiRunWhile : LoopiClass := (loopi none).addEvent (some true)

/-- `loopiOneEvent` after `pauseGame()`. -/
def loopiPausedOne : LoopiClass := loopiOneEvent.pauseGame

/-- An instance mid-run: rate 3, some accumulated ticks, a positive stored
timestamp. -/
def loopiTiming : LoopiClass :=
  { loopi (some 3) with lastTime := 500, ticks := 2, unpausedTicks := 1 }

/-! ### The claims -/

/-- C1: the claim says that after `changeTps(r)` the stats tick-rate field
equals `r` and subsequent frames use rate `r`.  The code violates this:
`changeTps` assigns only `this._options.ticksPerSecond`, which nothing
reads after construction, while `stats.tps` and `_update` read the
untouched `this._ticksPerSecond`.  Concretely: on a default instance
(rate 1), after `changeTps 5` the stats field is still 1, and a frame pair
1000 ms apart advances `ticks` by 1 (rate 1), not 5. -/
theorem changeTps_has_no_effect :
    ((loopi none).changeTps 5).optionsTicksPerSecond = 5 ∧
    ((loopi none).changeTps 5).stats.tps = 1 ∧
    (1 : ℚ) ≠ 5 ∧
    ((((loopi none).changeTps 5)._update 1000 condsFalse).state._update 2000
        condsFalse).state.ticks = 1 := by
  refine ⟨rfl, rfl, by norm_num, ?_⟩
  norm_num [loopi, LoopiClass.changeTps, LoopiClass._update, condsFalse, evalEvents]

/-- C2 counterexample: `-1` lies outside `[0, 1)`, yet `removeEvent (-1)`
on a one-event registry removes the event (JS `splice` counts a negative
start back from the end of the array), so the registry is not left
unchanged. -/
theorem removeEvent_neg_index_cex :
    loopiOneEvent.events.length = 1 ∧
    (loopiOneEvent.removeEvent (-1)).events = [] := by
  exact ⟨rfl, rfl⟩

/-- C2 (amended): `removeEvent i` never throws (it is a total state
transformer); for every index `i` at or past the registry length it leaves
the registry unchanged; and `removeEvent 0` on a length-1 registry yields
length 0.  (Negative indices are excluded from the no-op guarantee: JS
`splice` counts them back from the end of the array.) -/
theorem removeEvent_amended (s : LoopiClass) (i : ℤ) :
    ((s.events.length : ℤ) ≤ i → (s.removeEvent i).events = s.events) ∧
    (s.events.length = 1 → (s.removeEvent 0).events = []) := by
  constructor
  · intro h
    have h0 : ¬ (i < 0) := by
      have hlen : (0 : ℤ) ≤ (s.events.length : ℤ) := Int.natCast_nonneg _
      omega
    have hk : (if i < 0 then (((s.events.length : ℤ)) + i).toNat
               else min i.toNat s.events.length) = s.events.length := by
      rw [if_neg h0]
      omega
    show splice1 s.events i = s.events
    simp only [splice1, hk]
    rw [List.take_length]
    have hdrop : s.events.drop (s.events.length + 1) = [] :=
      List.drop_eq_nil_of_le (by omega)
    rw [hdrop, List.append_nil]
  · intro h
    obtain ⟨a, ha⟩ := List.length_eq_one.mp h
    show splice1 s.events 0 = []
    rw [ha]
    rfl

/-- Witness for the amended C2 at a concrete one-event instance: index 7 is
past the end and is a no-op; index 0 empties the registry. -/
theorem removeEvent_amended_witness :
    (loopiOneEvent.removeEvent 7).events = loopiOneEvent.events ∧
    (loopiOneEvent.removeEvent 0).events = [] :=
  ⟨(removeEvent_amended loopiOneEvent 7).1 (by decide),
   (removeEvent_amended loopiOneEvent 0).2 (by decide)⟩

/-- C3: during an unpaused frame, if the event at position `i` is active
with `runWhile = false` and its condition returns true this frame, the
evaluation pass stops no later than position `i`: no condition at a
position greater than `i` is invoked, no action at a position greater than
`i` is invoked, and the blocking event itself stays stored and active, so
it blocks again on later frames while its condition remains true. -/
theorem update_oneShot_blocks (s : LoopiClass) (t : ℚ) (conds : Nat → Bool)
    (i : Nat) (ei : LoopiEvent) (hp : s.paused = false)
    (hi : s.events[i]? = some ei) (ha : ei.isActive = true)
    (hw : ei.runWhile = false) (hc : conds i = true) :
    (∀ j ∈ (s._update t conds).condCalls, j ≤ i) ∧
    (∀ j ∈ (s._update t conds).actionCalls, j ≤ i) ∧
    (s._update t conds).state.events[i]? = some ei := by
  have hc0 : conds (0 + i) = true := by simpa using hc
  obtain ⟨h1, h2, h3⟩ := evalEvents_stop conds s.events 0 i ei hi ha hw hc0
  rw [update_condCalls_eq, update_actionCalls_eq, update_state_events, hp]
  refine ⟨?_, ?_, ?_⟩
  · intro j hj
    have := h1 j hj
    omega
  · intro j hj
    have := h2 j hj
    omega
  · rw [h3 i le_rfl]
    exact hi

/-- Witness for C3: first event active one-shot with true condition, second
event behind it; only position 0 is touched. -/
theorem update_oneShot_blocks_witness :
    (∀ j ∈ (loopiBlocked._update 0 condsTrue).condCalls, j ≤ 0) ∧
    (∀ j ∈ (loopiBlocked._update 0 condsTrue).actionCalls, j ≤ 0) ∧
    (loopiBlocked._update 0 condsTrue).state.events[0]? =
      some { runWhile := false, isActive := true } :=
  update_oneShot_blocks loopiBlocked 0 condsTrue 0
    { runWhile := false, isActive := true } rfl (by decide) rfl rfl rfl

/-- C9: when the unpaused frame's evaluation pass is stopped by the active
one-shot at position `i` (condition true, `runWhile = false`), every event
at a position greater than `i` is left exactly as it was: neither reset to
inactive nor activated. -/
theorem update_break_preserves_later (s : LoopiClass) (t : ℚ) (conds : Nat → Bool)
    (i : Nat) (ei : LoopiEvent) (hp : s.paused = false)
    (hi : s.events[i]? = some ei) (ha : ei.isActive = true)
    (hw : ei.runWhile = false) (hc : conds i = true) :
    ∀ j, i < j → (s._update t conds).state.events[j]? = s.events[j]? := by
  have hc0 : conds (0 + i) = true := by simpa using hc
  obtain ⟨-, -, h3⟩ := evalEvents_stop conds s.events 0 i ei hi ha hw hc0
  intro j hj
  rw [update_state_events, hp]
  exact h3 j (le_of_lt hj)

/-- Witness for C9: the inactive second event behind the blocking first one
is untouched by the frame. -/
theorem update_break_preserves_later_witness :
    (loopiBlocked._update 0 condsTrue).state.events[1]? =
      loopiBlocked.events[1]? :=
  update_break_preserves_later loopiBlocked 0 condsTrue 0
    { runWhile := false, isActive := true } rfl rfl rfl rfl rfl 1 (by omega)

/-- C4: with exactly one freshly-registered event whose condition is true
on both of two consecutive unpaused frames and whose `runWhile` is false,
the action fires on the first frame only; after the second frame the event
is still active and its action was not invoked again. -/
theorem update_oneShot_two_frames (s : LoopiClass) (t1 t2 : ℚ)
    (conds1 conds2 : Nat → Bool) (hp : s.paused = false)
    (he : s.events = [{ runWhile := false, isActive := false }])
    (hc1 : conds1 0 = true) (hc2 : conds2 0 = true) :
    (s._update t1 conds1).actionCalls = [0] ∧
    ((s._update t1 conds1).state._update t2 conds2).actionCalls = [] ∧
    ((s._update t1 conds1).state._update t2 conds2).state.events =
      [{ runWhile := false, isActive := true }] := by
  have hev1 : (s._update t1 conds1).state.events =
      [{ runWhile := false, isActive := true }] := by
    rw [update_state_events, hp, he]
    simp [evalEvents, hc1]
  have hp1 : (s._update t1 conds1).state.paused = false := by
    rw [update_preserves_paused]
    exact hp
  refine ⟨?_, ?_, ?_⟩
  · rw [update_actionCalls_eq, hp, he]
    simp [evalEvents, hc1]
  · rw [update_actionCalls_eq, hp1, hev1]
    simp [evalEvents, hc2]
  · rw [update_state_events, hp1, hev1]
    simp [evalEvents, hc2]

/-- Witness for C4 on a fresh default instance with one one-shot event and
an always-true condition, frames at 100 ms and 200 ms. -/
theorem update_oneShot_two_frames_witness :
    (loopiOneEvent._update 100 condsTrue).actionCalls = [0] ∧
    ((loopiOneEvent._update 100 condsTrue).state._update 200 condsTrue).actionCalls = [] ∧
    ((loopiOneEvent._update 100 condsTrue).state._update 200 condsTrue).state.events =
      [{ runWhile := false, isActive := true }] :=
  update_oneShot_two_frames loopiOneEvent 100 200 condsTrue condsTrue rfl rfl rfl rfl

/-- C5: with exactly one registered event whose `runWhile` is true, every
unpaused frame on which its condition returns true invokes its action
(level-triggered: no suppression while the condition stays true, whatever
the active flag currently is); the event stays registered with
`runWhile = true`, so the same holds on every later such frame. -/
theorem update_runWhile_fires (s : LoopiClass) (t : ℚ) (conds : Nat → Bool)
    (e : LoopiEvent) (hp : s.paused = false) (he : s.events = [e])
    (hw : e.runWhile = true) (hc : conds 0 = true) :
    (s._update t conds).actionCalls = [0] ∧
    (s._update t conds).state.events = [{ e with isActive := true }] := by
  constructor
  · rw [update_actionCalls_eq, hp, he]
    simp [evalEvents, hc, hw]
  · rw [update_state_events, hp, he]
    simp [evalEvents, hc, hw]

/-- Witness for C5 on a fresh default instance with one level-triggered
event: the action fires on a frame with a true condition. -/
theorem update_runWhile_fires_witness :
    (loopiRunWhile._update 100 condsTrue).actionCalls = [0] ∧
    (loopiRunWhile._update 100 condsTrue).state.events =
      [{ runWhile := true, isActive := true }] :=
  update_runWhile_fires loopiRunWhile 100 condsTrue
    { runWhile := true, isActive := false } rfl rfl rfl rfl

/-- C6: with a positive tick rate and a frame timestamp not earlier than
the stored one, one frame never decreases the plain accumulator (paused or
not); the unpaused accumulator is exactly unchanged on a paused frame and
never decreases on an unpaused frame. -/
theorem update_ticks_monotone (s : LoopiClass) (t : ℚ) (conds : Nat → Bool)
    (htps : 0 < s.ticksPerSecond) (ht : s.lastTime ≤ t) :
    s.ticks ≤ (s._update t conds).state.ticks ∧
    (s.paused = true → (s._update t conds).state.unpausedTicks = s.unpausedTicks) ∧
    (s.paused = false → s.unpausedTicks ≤ (s._update t conds).state.unpausedTicks) := by
  by_cases hl : 0 < s.lastTime
  · have hdelta : 0 ≤ t - s.lastTime := by linarith
    have hinc : 0 ≤ s.ticksPerSecond * (t - s.lastTime) / 1000 :=
      div_nonneg (mul_nonneg (le_of_lt htps) hdelta) (by norm_num)
    refine ⟨?_, ?_, ?_⟩
    · rw [update_ticks_formula s t conds hl]
      linarith
    · intro hpaused
      rw [update_unpausedTicks_formula s t conds hl]
      simp [hpaused]
    · intro hpaused
      rw [update_unpausedTicks_formula s t conds hl]
      simp only [hpaused, Bool.false_eq_true, if_false]
      linarith
  · obtain ⟨h1, h2, -⟩ := update_skip s t conds (not_lt.mp hl)
    rw [h1, h2]
    exact ⟨le_refl _, fun _ => rfl, fun _ => le_refl _⟩

/-- Witness for C6 on a mid-run unpaused instance at rate 3, frame 100 ms
after the stored timestamp. -/
theorem update_ticks_monotone_witness :
    loopiTiming.ticks ≤ (loopiTiming._update 600 condsFalse).state.ticks ∧
    loopiTiming.unpausedTicks ≤ (loopiTiming._update 600 condsFalse).state.unpausedTicks :=
  have h := update_ticks_monotone loopiTiming 600 condsFalse
    (by norm_num [loopiTiming, loopi]) (by norm_num [loopiTiming, loopi])
  ⟨h.1, h.2.2 rfl⟩

/-- C7: when the stored previous timestamp is positive, the plain
accumulator advances by exactly `tickRate * (timestamp - lastTime) / 1000`,
with no condition on the paused flag; on a first invocation (zero stored
timestamp, every event still inactive) neither accumulator advances, yet
every event's condition is invoked and the frame's timestamp is stored as
the next baseline. -/
theorem update_delta_spec (s : LoopiClass) (t : ℚ) (conds : Nat → Bool) :
    (0 < s.lastTime →
      (s._update t conds).state.ticks =
        s.ticks + s.ticksPerSecond * (t - s.lastTime) / 1000) ∧
    (s.lastTime = 0 → (∀ e ∈ s.events, e.isActive = false) →
      (s._update t conds).state.ticks = s.ticks ∧
      (s._update t conds).state.unpausedTicks = s.unpausedTicks ∧
      (s._update t conds).condCalls = List.range s.events.length ∧
      (s._update t conds).state.lastTime = t) := by
  constructor
  · exact fun hl => update_ticks_formula s t conds hl
  · intro h0 hinactive
    obtain ⟨h1, h2, -⟩ := update_skip s t conds (le_of_eq h0)
    refine ⟨h1, h2, ?_, update_lastTime s t conds⟩
    rw [update_condCalls_eq,
      evalEvents_inactive_condCalls s.paused conds s.events 0 hinactive,
      List.range_eq_range']

/-- Witness for C7: a mid-run instance gets the exact delta formula; a
fresh instance's first frame leaves the accumulators alone while checking
the (empty set of) conditions and storing the timestamp. -/
theorem update_delta_spec_witness :
    ((loopiTiming._update 600 condsFalse).state.ticks =
      loopiTiming.ticks +
        loopiTiming.ticksPerSecond * (600 - loopiTiming.lastTime) / 1000) ∧
    (((loopi none)._update 5 condsTrue).state.ticks = (loopi none).ticks ∧
     ((loopi none)._update 5 condsTrue).state.unpausedTicks = (loopi none).unpausedTicks ∧
     ((loopi none)._update 5 condsTrue).condCalls = List.range (loopi none).events.length ∧
     ((loopi none)._update 5 condsTrue).state.lastTime = 5) :=
  ⟨(update_delta_spec loopiTiming 600 condsFalse).1 (by norm_num [loopiTiming, loopi]),
   (update_delta_spec (loopi none) 5 condsTrue).2 rfl (by simp [loopi])⟩

/-- C8: on a paused frame every registered event's condition is still
invoked and every event ends the frame inactive; consequently a one-shot
event whose condition stayed true through the pause fires again on the
first unpaused frame after `resumeGame`. -/
theorem update_paused_frame (s : LoopiClass) (t : ℚ) (conds : Nat → Bool)
    (hp : s.paused = true) :
    (s._update t conds).condCalls = List.range s.events.length ∧
    (s._update t conds).actionCalls = [] ∧
    (∀ e ∈ (s._update t conds).state.events, e.isActive = false) ∧
    (∀ (t2 : ℚ) (conds2 : Nat → Bool) (e0 : LoopiEvent),
      s.events = [e0] → e0.runWhile = false → conds2 0 = true →
      (((s._update t conds).state.resumeGame)._update t2 conds2).actionCalls = [0]) := by
  obtain ⟨hcc, hac, hev⟩ := evalEvents_paused conds s.events 0
  refine ⟨?_, ?_, ?_, ?_⟩
  · rw [update_condCalls_eq, hp, hcc, List.range_eq_range']
  · rw [update_actionCalls_eq, hp, hac]
  · rw [update_state_events, hp, hev]
    intro e hee
    obtain ⟨x, -, hx⟩ := List.mem_map.mp hee
    rw [← hx]
  · intro t2 conds2 e0 he0 hw hc2
    have hev1 : (s._update t conds).state.events = [{ e0 with isActive := false }] := by
      rw [update_state_events, hp, hev, he0]
      rfl
    rw [update_actionCalls_eq]
    have hpr : ((s._update t conds).state.resumeGame).paused = false := rfl
    have hevr : ((s._update t conds).state.resumeGame).events =
        [{ e0 with isActive := false }] := hev1
    rw [hpr, hevr]
    simp [evalEvents, hc2]

/-- Witness for C8: the paused one-event instance, one paused frame, then
resume and one more frame with a still-true condition: the action fires. -/
theorem update_paused_frame_witness :
    (loopiPausedOne._update 50 condsTrue).condCalls =
      List.range loopiPausedOne.events.length ∧
    (loopiPausedOne._update 50 condsTrue).actionCalls = [] ∧
    (∀ e ∈ (loopiPausedOne._update 50 condsTrue).state.events, e.isActive = false) ∧
    (((loopiPausedOne._update 50 condsTrue).state.resumeGame)._update 60
        condsTrue).actionCalls = [0] :=
  have h := update_paused_frame loopiPausedOne 50 condsTrue rfl
  ⟨h.1, h.2.1, h.2.2.1,
   h.2.2.2 60 condsTrue { runWhile := false, isActive := false } rfl rfl rfl⟩

/-- C10: on any frame whose stored previous timestamp is not positive, no
delta is computed: both accumulators (and the stored unpaused delta) are
unchanged while the frame's timestamp becomes the new baseline; in
particular after a first frame whose host timestamp was exactly 0, the
following frame still leaves both accumulators unchanged. -/
theorem update_skip_nonpositive (s : LoopiClass) (t : ℚ) (conds : Nat → Bool)
    (h : s.lastTime ≤ 0) :
    (s._update t conds).state.ticks = s.ticks ∧
    (s._update t conds).state.unpausedTicks = s.unpausedTicks ∧
    (s._update t conds).state.unpausedDeltaTime = s.unpausedDeltaTime ∧
    (s._update t conds).state.lastTime = t ∧
    (∀ (t2 : ℚ) (conds2 : Nat → Bool),
      ((s._update 0 conds).state._update t2 conds2).state.ticks = s.ticks ∧
      ((s._update 0 conds).state._update t2 conds2).state.unpausedTicks =
        s.unpausedTicks) := by
  obtain ⟨h1, h2, h3⟩ := update_skip s t conds h
  refine ⟨h1, h2, h3, update_lastTime s t conds, ?_⟩
  intro t2 conds2
  obtain ⟨g1, g2, -⟩ := update_skip s 0 conds h
  have hl0 : (s._update 0 conds).state.lastTime = 0 := update_lastTime s 0 conds
  obtain ⟨k1, k2, -⟩ := update_skip ((s._update 0 conds).state) t2 conds2 (le_of_eq hl0)
  exact ⟨by rw [k1, g1], by rw [k2, g2]⟩

/-- Witness for C10 on a fresh instance: a frame at 30 ms leaves the
accumulators at zero; a first frame at timestamp 0 followed by one at
40 ms also leaves them at zero. -/
theorem update_skip_nonpositive_witness :
    ((loopi none)._update 30 condsTrue).state.ticks = (loopi none).ticks ∧
    ((loopi none)._update 30 condsTrue).state.unpausedTicks =
      (loopi none).unpausedTicks ∧
    ((loopi none)._update 30 condsTrue).state.unpausedDeltaTime =
      (loopi none).unpausedDeltaTime ∧
    ((loopi none)._update 30 condsTrue).state.lastTime = 30 ∧
    (((loopi none)._update 0 condsTrue).state._update 40 condsTrue).state.ticks =
      (loopi none).ticks ∧
    (((loopi none)._update 0 condsTrue).state._update 40 condsTrue).state.unpausedTicks =
      (loopi none).unpausedTicks :=
  have h := update_skip_nonpositive (loopi none) 30 condsTrue (by norm_num [loopi])
  ⟨h.1, h.2.1, h.2.2.1, h.2.2.2.1,
   (h.2.2.2.2 40 condsTrue).1, (h.2.2.2.2 40 condsTrue).2⟩
